import Mathlib

/-!
Verification of the assets middleware chain (pkg/assets/handlers.go).

Go strings are modelled as lists of characters (one Char per byte/rune;
all literals appearing in the middleware are ASCII, where bytes and runes
coincide).  HTTP handlers are modelled as total functions from a request
and the response state accumulated so far to the final response state;
an http.Handler value of the source corresponds to a value of Handler
below, and calling h.ServeHTTP(w, r) corresponds to applying the function.
-/

/-- Model of a Go string: a list of characters. -/
abbrev GoStr : Type := List Char

/-- Convert a Lean string literal to its GoStr model. -/
def str (s : String) : GoStr := s.data

/-- The slash character. -/
def slashC : Char := Char.ofNat 47

/-- The dot character. -/
def dotC : Char := Char.ofNat 46

/-- Models strings.TrimPrefix(s, pre): removes pre from the front of s
at most once, returning s unchanged when pre is not a prefix. -/
def trimPrefixGo (s pre : GoStr) : GoStr :=
  if List.isPrefixOf pre s then List.drop (List.length pre) s else s

/-- Models strings.Contains(s, sub): substring containment. -/
def containsSub (s sub : GoStr) : Bool :=
  match s with
  | [] => List.isEmpty sub
  | c :: t => List.isPrefixOf sub (c :: t) || containsSub t sub

/-- An HTTP header collection (http.Header): a sequence of key/value
pairs in insertion order.  Go stores a map from canonical key to a list
of values; all keys used by the middleware are already canonical, and
Get returns the first value stored for the key. -/
abbrev Headers : Type := List (GoStr × GoStr)

/-- Models http.Header.Get: first value for the key, or the empty
string when the key is absent. -/
def getH (h : Headers) (k : GoStr) : GoStr :=
  match List.find? (fun p => p.1 == k) h with
  | some p => p.2
  | none => []

/-- Models http.Header.Add: appends a value for the key. -/
def addH (h : Headers) (k v : GoStr) : Headers :=
  List.append h [(k, v)]

/-- Models http.Header.Set: replaces all values stored for the key by
the single given value. -/
def setH (h : Headers) (k v : GoStr) : Headers :=
  List.append (List.filter (fun p => p.1 != k) h) [(k, v)]

/-- Model of an http.Request: the URL path and the request headers. -/
structure GoRequest where
  path : GoStr
  headers : Headers
deriving DecidableEq

/-- Model of the state of an http.ResponseWriter: response headers, the
explicitly written status code (none while WriteHeader has not been
called) and the bytes written so far. -/
structure GoResponse where
  headers : Headers
  status : Option Nat
  body : GoStr
deriving DecidableEq

/-- Model of an http.Handler: a function from the request and the
response state at entry to the response state after the handler ran. -/
def Handler : Type := GoRequest → GoResponse → GoResponse

/-- Models the Go constant http.StatusNotModified. -/
def statusNotModified : Nat := 304

/-- GzipHandler (handlers.go lines 38-52).  The handler first adds
"Accept-Encoding" to the response Vary header, then forwards unchanged
when the request's Accept-Encoding does not mention gzip; otherwise it
normalizes the request Accept-Encoding, sets Content-Encoding and pipes
the downstream body through the compressor.  The streaming gzip writer
and the content-type sniffing of its first Write are abstracted by the
compress and detect parameters: the downstream handler's body bytes are
compressed as one unit, and a Content-Type is filled in from the sniffed
body when the downstream left it unset. -/
def gzipHandler (compress : GoStr → GoStr) (detect : GoStr → GoStr)
    (h : Handler) : Handler := fun r w =>
  let w1 : GoResponse :=
    { w with headers := addH w.headers (str "Vary") (str "Accept-Encoding") }
  if containsSub (getH r.headers (str "Accept-Encoding")) (str "gzip") then
    let r1 : GoRequest :=
      { r with headers := setH r.headers (str "Accept-Encoding") (str "gzip") }
    let w2 : GoResponse :=
      { w1 with headers := setH w1.headers (str "Content-Encoding") (str "gzip") }
    let res := h r1 { w2 with body := [] }
    let hs :=
      if res.body ≠ [] ∧ getH res.headers (str "Content-Type") = [] then
        setH res.headers (str "Content-Type") (detect res.body)
      else res.headers
    { res with headers := hs, body := List.append w2.body (compress res.body) }
  else
    h r w1

/-- Lowercase hexadecimal digit, as used by encoding/hex. -/
def loHexDigit (n : Nat) : Char :=
  if n < 10 then Char.ofNat (48 + n) else Char.ofNat (87 + n)

/-- Models hex.EncodeToString over a byte sequence. -/
def hexEncode (bs : List Nat) : GoStr :=
  List.flatMap bs (fun b => [loHexDigit (b / 16), loHexDigit (b % 16)])

/-- UTF-8 encoding of one rune, modelling the bytes of a Go string
conversion []byte(s). -/
def charUtf8 (c : Char) : List Nat :=
  let n := c.toNat
  if n < 128 then [n]
  else if n < 2048 then [192 + n / 64, 128 + n % 64]
  else if n < 65536 then [224 + n / 4096, 128 + (n / 64) % 64, 128 + n % 64]
  else [240 + n / 262144, 128 + (n / 4096) % 64, 128 + (n / 64) % 64, 128 + n % 64]

/-- Models []byte(s) for a Go string. -/
def utf8Encode (s : GoStr) : List Nat := List.flatMap s charUtf8

/-- generateEtag (handlers.go lines 54-60): concatenates the request's
values for the given Vary header names in order and formats the weak
validator W/"version_hex", where hex is the hex encoding of the bytes of
the concatenated values. -/
def generateEtag (r : GoRequest) (version : GoStr) (varyHeaders : List GoStr) : GoStr :=
  let varyHeaderValues :=
    List.foldl (fun acc vh => List.append acc (getH r.headers vh)) [] varyHeaders
  str "W/\"" ++ version ++ str "_" ++ hexEncode (utf8Encode varyHeaderValues) ++ str "\""

/-- Whitespace class of RE2's \s, as matched by varyHeaderRegexp. -/
def isGoSpace (c : Char) : Bool :=
  c.toNat = 9 || c.toNat = 10 || c.toNat = 12 || c.toNat = 13 || c.toNat = 32

/-- Trim leading and trailing \s characters. -/
def trimGoSpace (s : GoStr) : GoStr :=
  List.reverse (List.dropWhile isGoSpace (List.reverse (List.dropWhile isGoSpace s)))

/-- Models varyHeaderRegexp.Split(vary, -1) for the regular expression
\s*,\s* (handlers.go line 19): every match of the pattern consumes
exactly one comma together with the maximal whitespace runs on both
sides of it, so the split is the split on commas with each piece
stripped of surrounding whitespace. -/
def splitVary (s : GoStr) : List GoStr :=
  List.map trimGoSpace (List.splitOn (Char.ofNat 44) s)

/-- The etag computed by CacheControlHandler for a request given the
response state at entry (handlers.go lines 64-69): the response's
current Vary header is split into header names (empty Vary giving no
names) and passed to generateEtag. -/
def computedEtag (version : GoStr) (r : GoRequest) (w : GoResponse) : GoStr :=
  let vary := getH w.headers (str "Vary")
  let varyHeaders := if vary = [] then [] else splitVary vary
  generateEtag r version varyHeaders

/-- CacheControlHandler (handlers.go lines 62-80): when the request's
If-None-Match equals the computed etag the handler writes status 304 and
returns; otherwise it adds the ETag response header and delegates. -/
def cacheControlHandler (version : GoStr) (h : Handler) : Handler := fun r w =>
  let etag := computedEtag version r w
  if getH r.headers (str "If-None-Match") = etag then
    { w with status := some statusNotModified }
  else
    h r { w with headers := addH w.headers (str "ETag") etag }

/-- Bytewise lexicographic strict order on Go strings, the order used by
sort.Strings. -/
def goStrLT : GoStr → GoStr → Bool
  | [], [] => false
  | [], _ :: _ => true
  | _ :: _, [] => false
  | a :: as, b :: bs =>
    if a.toNat < b.toNat then true
    else if b.toNat < a.toNat then false
    else goStrLT as bs

/-- Non-strict bytewise lexicographic order on Go strings. -/
def goStrLE (a b : GoStr) : Bool := ! goStrLT b a

/-- Ordered insertion for the alphabetical pass (sort.Strings on the
subcontext keys). -/
def insertAlpha (x : GoStr) : List GoStr → List GoStr
  | [] => [x]
  | y :: ys => if goStrLE x y then x :: y :: ys else y :: insertAlpha x ys

/-- Models sort.Strings (handlers.go line 116) as an insertion sort by
the bytewise string order.  For sorting strings by this total order
every comparison sort returns the same value list, because strings the
comparator cannot separate are equal strings; the insertion sort is
therefore extensionally faithful to sort.Strings. -/
def sortAlpha : List GoStr → List GoStr
  | [] => []
  | x :: xs => insertAlpha x (sortAlpha xs)

/-- Ordered insertion for the second pass: a string is inserted in front
of the first string that is not longer than it, so strings of equal
length keep the relative order the alphabetical pass gave them. -/
def insertLen (x : GoStr) : List GoStr → List GoStr
  | [] => [x]
  | y :: ys =>
    if List.length y ≤ List.length x then x :: y :: ys else y :: insertLen x ys

/-- The second sorting pass of the construction (handlers.go lines
82-92 and 118, comparator Less i j = len(s[i]) > len(s[j])) in its
intended stable form: an insertion sort by descending length that keeps
names of equal length in the order the alphabetical pass produced, as
the construction's comment pair (Sort alphabetically, then by length)
and the spec's ordering invariant intend, and as sort.Stable would
compute.  The program actually calls sort.Sort, which is not stable;
that shipped algorithm is modelled separately by sortSortLongest below
and does not guarantee the equal-length tiebreak.  The theorems about
request serving rely only on the properties every run of sort.Sort
guarantees: the result is a permutation of the names ordered by
non-increasing length. -/
def sortLenDesc : List GoStr → List GoStr
  | [] => []
  | x :: xs => insertLen x (sortLenDesc xs)

/-- Models bytes.Replace(s, old, new, 1): replace the first occurrence
of old in s, if any, by new. -/
def replaceFirst (s old new : GoStr) : GoStr :=
  match s with
  | [] => if List.isEmpty old then new else []
  | c :: rest =>
    if List.isPrefixOf old (c :: rest) then
      List.append new (List.drop (List.length old) (c :: rest))
    else
      c :: replaceFirst rest old new

/-- Backtracking step of path.Clean for a ".." element: starting from
position w, step left while the position is above dotdot and does not
hold a slash (the loop out.w--; for out.w > dotdot ... of the Go
implementation). -/
def backtrackW (out : List Char) (dotdot : Nat) : Nat → Nat
  | 0 => 0
  | w + 1 =>
    if dotdot < w + 1 ∧ List.get? out (w + 1) ≠ some slashC then
      backtrackW out dotdot w
    else w + 1

/-- Main loop of path.Clean, consuming the remaining path characters.
The first argument of each step is fuel bounding the number of loop
iterations; every iteration consumes at least one character of the
remaining path, so fuel = length of the path + 1 (as supplied by
goClean) is never exhausted. -/
def cleanLoop (rooted : Bool) : Nat → List Char → List Char → Nat → List Char
  | 0, _, out, _ => out
  | _ + 1, [], out, _ => out
  | fuel + 1, c :: rest, out, dotdot =>
    if c = slashC then
      cleanLoop rooted fuel rest out dotdot
    else if c = dotC ∧ (rest = [] ∨ List.head? rest = some slashC) then
      cleanLoop rooted fuel rest out dotdot
    else if c = dotC ∧ List.head? rest = some dotC ∧
        (List.tail rest = [] ∨ List.head? (List.tail rest) = some slashC) then
      if dotdot < List.length out then
        cleanLoop rooted fuel (List.tail rest)
          (List.take (backtrackW out dotdot (List.length out - 1)) out) dotdot
      else if rooted = false then
        let out2 :=
          List.append (if List.length out ≠ 0 then List.append out [slashC] else out)
            [dotC, dotC]
        cleanLoop rooted fuel (List.tail rest) out2 (List.length out2)
      else
        cleanLoop rooted fuel (List.tail rest) out dotdot
    else
      let out1 :=
        if (rooted = true ∧ List.length out ≠ 1) ∨ (rooted = false ∧ List.length out ≠ 0)
        then List.append out [slashC] else out
      cleanLoop rooted fuel (List.dropWhile (fun x => x ≠ slashC) (c :: rest))
        (List.append out1 (List.takeWhile (fun x => x ≠ slashC) (c :: rest))) dotdot

/-- Models path.Clean: lexical cleaning of a slash-separated path. -/
def goClean (p : GoStr) : GoStr :=
  if p = [] then str "."
  else
    let rooted := List.head? p = some slashC
    let out0 : List Char := if rooted then [slashC] else []
    let p0 := if rooted then List.tail p else p
    let res := cleanLoop (decide rooted) (List.length p + 1) p0 out0
      (if rooted then 1 else 0)
    if res = [] then str "." else res

/-- Models path.Join(a, b): the nonempty elements joined by a slash and
cleaned; empty when both elements are empty. -/
def goPathJoin (a b : GoStr) : GoStr :=
  if a ≠ [] then goClean (List.append a (slashC :: b))
  else if b ≠ [] then goClean b
  else []

/-- The literal placeholder the construction replaces in an index
document (handlers.go line 110). -/
def baseHrefOld : GoStr := str "<base href=\"/\">"

/-- The replacement written for a subcontext: the formatted base tag
with path.Join(contextRoot, subcontext) interpolated (handlers.go
line 110). -/
def baseHrefNew (contextRoot subcontext : GoStr) : GoStr :=
  str "<base href=\"" ++ goPathJoin contextRoot subcontext ++ str "\">"

/-- The RewrittenIndex cached for one subcontext at construction: the
index bytes with the first occurrence of the base-href placeholder
replaced (handlers.go line 110). -/
def rewriteIndex (contextRoot subcontext b : GoStr) : GoStr :=
  replaceFirst b baseHrefOld (baseHrefNew contextRoot subcontext)

/-- Modelled from the spec: the AssetStore interface
resolve(path) -> bytes | NotFound.  The Asset function called by the
construction and the per-request path is generated asset code outside
the middleware source; the handlers only observe whether a path
resolves and, when it does, the bytes it resolves to. -/
abbrev AssetStore : Type := GoStr → Option GoStr

/-- Construction loop of HTML5ModeHandler (handlers.go lines 105-113):
resolve each subcontext's index through the store, failing when a
resolution fails, and cache the rewritten index per subcontext.  The
subcontext map is given as the sequence of key/value pairs in the order
Go's map iteration yields them. -/
def buildData (store : AssetStore) (contextRoot : GoStr) :
    List (GoStr × GoStr) → Except Unit (List (GoStr × GoStr))
  | [] => Except.ok []
  | (sc, idx) :: rest =>
    match store idx with
    | none => Except.error ()
    | some b =>
      Except.map (fun d => (sc, rewriteIndex contextRoot sc b) :: d)
        (buildData store contextRoot rest)

/-- The subcontext keys in map-iteration order. -/
def subcontextKeys (m : List (GoStr × GoStr)) : List GoStr :=
  List.map Prod.fst m

/-- The sorted subcontext list built at construction (handlers.go lines
115-118): alphabetical sort followed by the sort by descending length,
with the length pass in its intended stable form; sortedSubcontextsGo
below applies the shipped unstable sort.Sort instead.  Both agree on
being a permutation of the keys ordered by non-increasing length, the
only facts the serving theorems use. -/
def sortedSubcontexts (m : List (GoStr × GoStr)) : List GoStr :=
  sortLenDesc (sortAlpha (subcontextKeys m))

/-- Less of the LongestToShortest comparator read at two indices of the
working slice, as Go's sort.Sort calls it: Less(i, j) iff the string at
i is longer than the string at j. -/
def lessLen (l : List GoStr) (i j : Nat) : Bool :=
  decide (List.length (List.getD l j []) < List.length (List.getD l i []))

/-- Swap of two positions of the working slice (sort.Interface.Swap). -/
def swapL (l : List GoStr) (i j : Nat) : List GoStr :=
  let x := List.getD l i []
  let y := List.getD l j []
  List.set (List.set l i y) j x

/-- medianOfThree of Go's sort package: moves the median of the values
at m1, m0, m2 into m1 by at most three conditional swaps. -/
def medianOfThreeGo (l : List GoStr) (m1 m0 m2 : Nat) : List GoStr :=
  let l1 := if lessLen l m1 m0 then swapL l m1 m0 else l
  if lessLen l1 m2 m1 then
    let l2 := swapL l1 m2 m1
    if lessLen l2 m1 m0 then swapL l2 m1 m0 else l2
  else l1

/-- First scan of doPivot: advance a while a < c and data[a] is below
the pivot.  The first argument of each loop model below is fuel
bounding the iteration count; every call site passes a bound above the
number of index positions the loop can visit, so the fuel is never
exhausted. -/
def pivotAdvanceA (l : List GoStr) (pivot c : Nat) : Nat → Nat → Nat
  | 0, a => a
  | fuel + 1, a =>
    if a < c ∧ lessLen l a pivot = true then pivotAdvanceA l pivot c fuel (a + 1) else a

/-- Inner scan of doPivot: advance b while data[b] is at most the
pivot. -/
def pivotAdvanceB (l : List GoStr) (pivot c : Nat) : Nat → Nat → Nat
  | 0, b => b
  | fuel + 1, b =>
    if b < c ∧ lessLen l pivot b = false then pivotAdvanceB l pivot c fuel (b + 1) else b

/-- Inner scan of doPivot: retreat c while data[c-1] is above the
pivot. -/
def pivotRetreatC (l : List GoStr) (pivot b : Nat) : Nat → Nat → Nat
  | 0, c => c
  | fuel + 1, c =>
    if b < c ∧ lessLen l pivot (c - 1) = true then pivotRetreatC l pivot b fuel (c - 1) else c

/-- Main partition loop of doPivot: scan from both ends and swap
data[b] with data[c-1] until the scans meet.  This Swap(b, c-1) is what
carries an element past comparator-equal neighbours and makes sort.Sort
unstable. -/
def pivotLoop (pivot : Nat) : Nat → List GoStr → Nat → Nat → List GoStr × Nat × Nat
  | 0, l, b, c => (l, b, c)
  | fuel + 1, l, b, c =>
    let b1 := pivotAdvanceB l pivot c (c + 1) b
    let c1 := pivotRetreatC l pivot b1 (c + 1) c
    if b1 ≥ c1 then (l, b1, c1)
    else pivotLoop pivot fuel (swapL l b1 (c1 - 1)) (b1 + 1) (c1 - 1)

/-- Scan of the duplicate-protection loop of doPivot: retreat b while
data[b-1] equals the pivot. -/
def protectRetreatB (l : List GoStr) (pivot a : Nat) : Nat → Nat → Nat
  | 0, b => b
  | fuel + 1, b =>
    if a < b ∧ lessLen l (b - 1) pivot = false then protectRetreatB l pivot a fuel (b - 1) else b

/-- Scan of the duplicate-protection loop of doPivot: advance a while
data[a] is below the pivot. -/
def protectAdvanceA (l : List GoStr) (pivot b : Nat) : Nat → Nat → Nat
  | 0, a => a
  | fuel + 1, a =>
    if a < b ∧ lessLen l a pivot = true then protectAdvanceA l pivot b fuel (a + 1) else a

/-- Duplicate-protection loop of doPivot: gather elements equal to the
pivot below b, swapping data[a] with data[b-1]. -/
def protectLoop (pivot : Nat) : Nat → List GoStr → Nat → Nat → List GoStr × Nat × Nat
  | 0, l, a, b => (l, a, b)
  | fuel + 1, l, a, b =>
    let b1 := protectRetreatB l pivot a (b + 1) b
    let a1 := protectAdvanceA l pivot b1 (b1 + 1) a
    if a1 ≥ b1 then (l, a1, b1)
    else protectLoop pivot fuel (swapL l a1 (b1 - 1)) (a1 + 1) (b1 - 1)

/-- doPivot of Go's sort package: median-of-three pivot choice (ninther
above 40 elements), two-way partition, duplicate detection with the
protection loop, and the final swap of the pivot into the middle;
returns the new slice together with midlo and midhi. -/
def doPivotGo (l0 : List GoStr) (lo hi : Nat) : List GoStr × Nat × Nat :=
  let m := (lo + hi) / 2
  let l1 :=
    if hi - lo > 40 then
      let s := (hi - lo) / 8
      let la := medianOfThreeGo l0 lo (lo + s) (lo + 2 * s)
      let lb := medianOfThreeGo la m (m - s) (m + s)
      medianOfThreeGo lb (hi - 1) (hi - 1 - s) (hi - 1 - 2 * s)
    else l0
  let l2 := medianOfThreeGo l1 lo m (hi - 1)
  let pivot := lo
  let a0 := pivotAdvanceA l2 pivot (hi - 1) hi (lo + 1)
  let pl := pivotLoop pivot (hi + 1) l2 a0 (hi - 1)
  let l3 := pl.1
  let b0 := pl.2.1
  let c0 := pl.2.2
  let protect0 := hi - c0 < 5
  let dres :=
    if ¬ protect0 ∧ hi - c0 < (hi - lo) / 4 then
      let t1 :=
        if lessLen l3 pivot (hi - 1) = false then (swapL l3 c0 (hi - 1), c0 + 1, 1)
        else (l3, c0, 0)
      let lA := t1.1
      let cA := t1.2.1
      let d1 := t1.2.2
      let t2 := if lessLen lA (b0 - 1) pivot = false then (b0 - 1, d1 + 1) else (b0, d1)
      let bB := t2.1
      let d2 := t2.2
      let t3 :=
        if lessLen lA m pivot = false then (swapL lA m (bB - 1), bB - 1, d2 + 1)
        else (lA, bB, d2)
      (t3.1, t3.2.1, cA, decide (t3.2.2 > 1))
    else (l3, b0, c0, decide protect0)
  let l4 := dres.1
  let b1 := dres.2.1
  let c1 := dres.2.2.1
  let protect1 := dres.2.2.2
  let pres := if protect1 then protectLoop pivot (hi + 1) l4 a0 b1 else (l4, a0, b1)
  let l5 := pres.1
  let b2 := pres.2.2
  let l6 := swapL l5 pivot (b2 - 1)
  (l6, b2 - 1, c1)

/-- Inner loop of Go's insertionSort: move data[j] left while it is
below its left neighbour. -/
def insertMoveGo (a : Nat) : Nat → List GoStr → Nat → List GoStr
  | 0, l, _ => l
  | fuel + 1, l, j =>
    if a < j ∧ lessLen l j (j - 1) = true then insertMoveGo a fuel (swapL l j (j - 1)) (j - 1)
    else l

/-- Outer loop of Go's insertionSort over i = a+1, ..., b-1. -/
def insertLoopGo (a b : Nat) : Nat → List GoStr → Nat → List GoStr
  | 0, l, _ => l
  | fuel + 1, l, i =>
    if i < b then insertLoopGo a b fuel (insertMoveGo a (i + 1) l i) (i + 1) else l

/-- insertionSort of Go's sort package on the range [a, b). -/
def insertionSortGo (l : List GoStr) (a b : Nat) : List GoStr :=
  insertLoopGo a b (b + 1) l (a + 1)

/-- Loop of the Shell-sort pass with gap 6 that quickSort applies to
ranges of at most 12 elements before the insertion sort. -/
def shellLoopGo (b : Nat) : Nat → List GoStr → Nat → List GoStr
  | 0, l, _ => l
  | fuel + 1, l, i =>
    if i < b then
      shellLoopGo b fuel (if lessLen l i (i - 6) then swapL l i (i - 6) else l) (i + 1)
    else l

/-- The Shell-sort pass with gap 6 on the range [a, b). -/
def shellPassGo (l : List GoStr) (a b : Nat) : List GoStr :=
  shellLoopGo b (b + 1) l (a + 6)

/-- siftDown of Go's heapSort. -/
def siftDownGo (first : Nat) : Nat → List GoStr → Nat → Nat → List GoStr
  | 0, l, _, _ => l
  | fuel + 1, l, root, hi =>
    let child := 2 * root + 1
    if child ≥ hi then l
    else
      let child1 :=
        if child + 1 < hi ∧ lessLen l (first + child) (first + child + 1) = true then child + 1
        else child
      if lessLen l (first + root) (first + child1) = false then l
      else siftDownGo first fuel (swapL l (first + root) (first + child1)) child1 hi

/-- Heap-building loop of Go's heapSort, i = (hi-1)/2 down to 0. -/
def heapBuildGo (first hi : Nat) : Nat → List GoStr → Nat → List GoStr
  | 0, l, _ => l
  | fuel + 1, l, i =>
    let l1 := siftDownGo first (hi + 1) l i hi
    if i = 0 then l1 else heapBuildGo first hi fuel l1 (i - 1)

/-- Pop loop of Go's heapSort, i = hi-1 down to 0. -/
def heapPopGo (first : Nat) : Nat → List GoStr → Nat → List GoStr
  | 0, l, _ => l
  | fuel + 1, l, i =>
    let l1 := siftDownGo first (i + 1) (swapL l first (first + i)) 0 i
    if i = 0 then l1 else heapPopGo first fuel l1 (i - 1)

/-- heapSort of Go's sort package on the range [a, b), used by
quickSort once the depth limit is reached. -/
def heapSortGo (l : List GoStr) (a b : Nat) : List GoStr :=
  let first := a
  let hi := b - a
  let l1 := heapBuildGo first hi (hi + 1) l ((hi - 1) / 2)
  if hi = 0 then l1 else heapPopGo first (hi + 1) l1 (hi - 1)

/-- quickSort of Go's sort package: partition ranges above 12 elements
(falling back to heapSort at the depth limit), and finish short ranges
with the Shell pass and the insertion sort.  Go's loop decrements
maxDepth once per partition and applies the decremented value to both
sides; the recursion mirrors that.  The fuel bounds the recursion
depth, which maxDepth + 2 always covers. -/
def quickSortGo : Nat → List GoStr → Nat → Nat → Nat → List GoStr
  | 0, l, _, _, _ => l
  | fuel + 1, l, a, b, maxd =>
    if b - a > 12 then
      if maxd = 0 then heapSortGo l a b
      else
        let p := doPivotGo l a b
        let l1 := p.1
        let mlo := p.2.1
        let mhi := p.2.2
        if mlo - a < b - mhi then
          quickSortGo fuel (quickSortGo fuel l1 a mlo (maxd - 1)) mhi b (maxd - 1)
        else
          quickSortGo fuel (quickSortGo fuel l1 mhi b (maxd - 1)) a mlo (maxd - 1)
    else if b - a > 1 then insertionSortGo (shellPassGo l a b) a b
    else l

/-- Halving count of Go's maxDepth: the number of right shifts taking n
to zero (fuel n suffices). -/
def depthCount : Nat → Nat → Nat
  | 0, _ => 0
  | fuel + 1, i => if i > 0 then depthCount fuel (i / 2) + 1 else 0

/-- maxDepth of Go's sort package: twice the halving count, the depth
at which quickSort switches to heapSort. -/
def maxDepthGo (n : Nat) : Nat := depthCount n n * 2

/-- sort.Sort with the LongestToShortest comparator, as the Go standard
library implements it (the introsort shipped from Go 1.6 through Go
1.18; earlier releases differ in the short-range threshold but perform
the same unstable partition swaps).  This is the algorithm handlers.go
line 118 actually runs, modelled faithfully loop by loop above. -/
def sortSortLongest (l : List GoStr) : List GoStr :=
  quickSortGo (maxDepthGo (List.length l) + 2) l 0 (List.length l) (maxDepthGo (List.length l))

/-- The subcontext list the construction actually builds (handlers.go
lines 115-118) under the faithful library model: sort.Strings followed
by the shipped unstable sort.Sort(LongestToShortest). -/
def sortedSubcontextsGo (m : List (GoStr × GoStr)) : List GoStr :=
  sortSortLongest (sortAlpha (subcontextKeys m))

/-- The match test of the per-request loop (handlers.go line 125):
the path equals the subcontext or extends it by a path segment. -/
def scMatches (urlPath subcontext : GoStr) : Bool :=
  urlPath == subcontext || List.isPrefixOf (subcontext ++ str "/") urlPath

/-- Lookup of the cached rewritten index for a subcontext, modelling
the Go map read subcontextData[subcontext]. -/
def lookupData (d : List (GoStr × GoStr)) (sc : GoStr) : GoStr :=
  match List.find? (fun p => p.1 == sc) d with
  | some p => p.2
  | none => []

/-- The request-serving closure of HTML5ModeHandler (handlers.go lines
120-132): strip one leading slash; serve the downstream handler when
the store resolves the stripped path; otherwise serve the first
matching subcontext's cached index, and fall through to the downstream
handler when no subcontext matches. -/
def serveHTML5 (store : AssetStore) (d : List (GoStr × GoStr))
    (subs : List GoStr) (h : Handler) : Handler := fun r w =>
  let urlPath := trimPrefixGo r.path (str "/")
  match store urlPath with
  | some _ => h r w
  | none =>
    match List.find? (fun sc => scMatches urlPath sc) subs with
    | some sc => { w with body := List.append w.body (lookupData d sc) }
    | none => h r w

/-- HTML5ModeHandler (handlers.go lines 101-133): construction either
fails with the resolution error or yields the serving closure over the
cached data and the sorted subcontext list. -/
def html5ModeHandler (store : AssetStore) (contextRoot : GoStr)
    (m : List (GoStr × GoStr)) (h : Handler) : Except Unit Handler :=
  Except.map (fun d => serveHTML5 store d (sortedSubcontexts m) h)
    (buildData store contextRoot m)

/-- Uppercase hexadecimal digit, as used by the \u00XX escapes of the
template js escaper. -/
def upHexDigit (n : Nat) : Char :=
  if n < 10 then Char.ofNat (48 + n) else Char.ofNat (55 + n)

/-- Escape of one character by the js template function
(text/template JSEscape): backslash, both quote characters and the
angle brackets are escaped, control characters become \u00XX, and all
other characters pass through.  Go writes non-printable runes at or
above 0x80 as \uXXXX escapes; those runes are modelled as passing
through, a difference that no stated theorem depends on since such
runes are never a quote, a backslash or an angle bracket. -/
def jsEscapeChar (c : Char) : GoStr :=
  if c.toNat = 92 then [Char.ofNat 92, Char.ofNat 92]
  else if c.toNat = 39 then [Char.ofNat 92, Char.ofNat 39]
  else if c.toNat = 34 then [Char.ofNat 92, Char.ofNat 34]
  else if c.toNat = 60 then str "\\x3C"
  else if c.toNat = 62 then str "\\x3E"
  else if c.toNat < 32 then
    List.append (str "\\u00") [upHexDigit (c.toNat / 16), upHexDigit (c.toNat % 16)]
  else [c]

/-- The js template function applied to an interpolated value. -/
def jsEscape (v : GoStr) : GoStr := List.flatMap v jsEscapeChar

/-- WebConsoleConfig (handlers.go lines 156-174). -/
structure WebConsoleConfig where
  MasterAddr : GoStr
  MasterPrefix : GoStr
  KubernetesAddr : GoStr
  KubernetesPrefix : GoStr
  OAuthAuthorizeURI : GoStr
  OAuthRedirectBase : GoStr
  OAuthClientID : GoStr
  LogoutURI : GoStr
deriving DecidableEq

/-- The rendering of configTemplate (handlers.go lines 135-154) for a
configuration record: the literal template text with every field passed
through the js escaper, following the template's explicit pipelines.
(html/template's contextual autoescaping can add a further HTML-text
escaping pass over each interpolation; the theorems below concern the
explicit js escaping and the handler control flow and do not depend on
that extra pass.) -/
def renderConfig (c : WebConsoleConfig) : GoStr :=
  str "\nwindow.OPENSHIFT_CONFIG = \x7b\n  api: \x7b\n    openshift: \x7b\n      hostPort: \""
    ++ jsEscape c.MasterAddr
    ++ str "\",\n      prefix: \"" ++ jsEscape c.MasterPrefix
    ++ str "\"\n    \x7d,\n    k8s: \x7b\n      hostPort: \"" ++ jsEscape c.KubernetesAddr
    ++ str "\",\n      prefix: \"" ++ jsEscape c.KubernetesPrefix
    ++ str "\"\n    \x7d\n  \x7d,\n  auth: \x7b\n  \toauth_authorize_uri: \""
    ++ jsEscape c.OAuthAuthorizeURI
    ++ str "\",\n  \toauth_redirect_base: \"" ++ jsEscape c.OAuthRedirectBase
    ++ str "\",\n  \toauth_client_id: \"" ++ jsEscape c.OAuthClientID
    ++ str "\",\n  \tlogout_uri: \"" ++ jsEscape c.LogoutURI
    ++ str "\",\n  \x7d\n\x7d;\n"

/-- GeneratedConfigHandler (handlers.go lines 176-187): requests whose
path with one leading slash stripped equals config.js get Cache-Control
no-cache, no-store added and the rendered template written; every other
request is delegated untouched. -/
def generatedConfigHandler (config : WebConsoleConfig) (h : Handler) : Handler :=
  fun r w =>
    if trimPrefixGo r.path (str "/") = str "config.js" then
      let w1 : GoResponse :=
        { w with headers := addH w.headers (str "Cache-Control") (str "no-cache, no-store") }
      { w1 with body := List.append w1.body (renderConfig config) }
    else h r w

/-- Follows the spec's words for the ETag derived value: the weak
validator built from the version identifier together with the digest
(the hex encoding the code uses) of the concatenation of the request's
values for the headers named in the Vary list. -/
def specEtag (version concatenatedValues : GoStr) : GoStr :=
  str "W/\"" ++ version ++ str "_" ++ hexEncode (utf8Encode concatenatedValues) ++ str "\""

/-- The two-key order of the spec invariant: earlier strings are
strictly longer, or of equal length and bytewise no greater. -/
def keyOrdered (a b : GoStr) : Prop :=
  List.length b < List.length a ∨
    (List.length a = List.length b ∧ goStrLE a b = true)

instance : DecidableRel keyOrdered := fun a b =>
  inferInstanceAs (Decidable
    (List.length b < List.length a ∨
      (List.length a = List.length b ∧ goStrLE a b = true)))

/-- A subcontext map of thirteen names (any index paths; the names are
listed alphabetically, so the alphabetical pass returns them as given,
whatever order map iteration yields).  Eleven names have length 2 and
the names b and l have length 1: the first quicksort partition swaps b
(position 1) with the length-2 name at position 10, carrying it past
nine equal-length names, so the shipped sort leaves the length-2 group
out of alphabetical order. -/
def c2Map : List (GoStr × GoStr) :=
  [(str "aa", str "i"), (str "b", str "i"), (str "ca", str "i"), (str "da", str "i"),
   (str "ea", str "i"), (str "fa", str "i"), (str "ga", str "i"), (str "ha", str "i"),
   (str "ia", str "i"), (str "ja", str "i"), (str "ka", str "i"), (str "l", str "i"),
   (str "ma", str "i")]

/-- A concrete store for the witnesses: two index assets. -/
def exStore : AssetStore := fun p =>
  if p = str "ia" then some (str "IDXA")
  else if p = str "ib" then some (str "IDXB")
  else none

/-- A concrete downstream handler for the witnesses. -/
def exDown : Handler := fun _ w => { w with body := str "FALL" }

/-- The example subcontext map in one iteration order. -/
def exM1 : List (GoStr × GoStr) := [(str "a", str "ia"), (str "a/b", str "ib")]

/-- The example subcontext map in the other iteration order. -/
def exM2 : List (GoStr × GoStr) := [(str "a/b", str "ib"), (str "a", str "ia")]

/-- An empty response state for the witnesses. -/
def exW : GoResponse := GoResponse.mk [] none []

/-- A concrete store for the C10 scenarios: one index asset. -/
def cStore : AssetStore := fun p =>
  if p = str "idx" then some (str "IDX") else none

/-- Bridge from the executable prefix test to the prefix relation. -/
theorem goIsPrefix_iff (a b : GoStr) : List.isPrefixOf a b = true ↔ a <+: b :=
  List.isPrefixOf_iff_prefix

/-- Claim C4: a request whose If-None-Match equals the etag computed for
it receives status Not Modified with the response otherwise untouched
(no body written, headers unchanged), and the downstream handler, being
universally quantified and absent from the right-hand side, is never
invoked. -/
theorem c4_not_modified_short_circuit (version : GoStr) (h : Handler)
    (r : GoRequest) (w : GoResponse)
    (hm : getH r.headers (str "If-None-Match") = computedEtag version r w) :
    cacheControlHandler version h r w = { w with status := some statusNotModified } := by
  simp [cacheControlHandler, hm]

/-- Witness for C4 at a concrete request: version v1 with no Vary header
computes the etag W/"v1_", and a request carrying exactly that value in
If-None-Match is answered 304 with no body and no downstream call. -/
theorem c4_witness :
    cacheControlHandler (str "v1") (fun _ w => { w with body := str "DOWN" })
        { path := str "/x", headers := [(str "If-None-Match", str "W/\"v1_\"")] }
        { headers := [], status := none, body := [] } =
      { headers := [], status := some statusNotModified, body := [] } :=
  c4_not_modified_short_circuit (str "v1") (fun _ w => { w with body := str "DOWN" })
    { path := str "/x", headers := [(str "If-None-Match", str "W/\"v1_\"")] }
    { headers := [], status := none, body := [] } (by decide)

/-- Claim C9: on the Not-Modified short circuit the response headers are
left exactly as they were (in particular a response that had no ETag
header still has none), while on the forwarding path the handler is the
downstream handler run on the response with the ETag header added. -/
theorem c9_etag_only_on_forward (version : GoStr) (h : Handler)
    (r : GoRequest) (w : GoResponse) :
    (getH r.headers (str "If-None-Match") = computedEtag version r w →
      (cacheControlHandler version h r w).headers = w.headers ∧
      (getH w.headers (str "ETag") = [] →
        getH (cacheControlHandler version h r w).headers (str "ETag") = [])) ∧
    (getH r.headers (str "If-None-Match") ≠ computedEtag version r w →
      cacheControlHandler version h r w =
        h r { w with headers := addH w.headers (str "ETag") (computedEtag version r w) }) := by
  constructor
  · intro hm
    constructor
    · simp [cacheControlHandler, hm]
    · intro he
      simp [cacheControlHandler, hm, he]
  · intro hm
    simp [cacheControlHandler, hm]

/-- Witness for C9: the 304 path of the concrete C4 scenario carries no
ETag header, and a request with a non-matching If-None-Match gets the
ETag added and the downstream handler run. -/
theorem c9_witness :
    (cacheControlHandler (str "v1") (fun _ w => { w with body := str "DOWN" })
        { path := str "/x", headers := [(str "If-None-Match", str "W/\"v1_\"")] }
        { headers := [], status := none, body := [] }).headers = [] ∧
    cacheControlHandler (str "v1") (fun _ w => { w with body := str "DOWN" })
        { path := str "/x", headers := [] }
        { headers := [], status := none, body := [] } =
      { headers := [(str "ETag", str "W/\"v1_\"")], status := none, body := str "DOWN" } := by
  constructor
  · exact (c9_etag_only_on_forward (str "v1") (fun _ w => { w with body := str "DOWN" })
      { path := str "/x", headers := [(str "If-None-Match", str "W/\"v1_\"")] }
      { headers := [], status := none, body := [] }).1 (by decide) |>.1
  · have h2 := (c9_etag_only_on_forward (str "v1") (fun _ w => { w with body := str "DOWN" })
      { path := str "/x", headers := [] }
      { headers := [], status := none, body := [] }).2 (by decide)
    rw [h2]
    decide

/-- Counterexample to claim C5 as stated: for a request with no
Accept-Encoding at all (so gzip is certainly not advertised) and an
identity downstream handler, the response headers after GzipHandler
differ from the untouched response headers, because the handler adds
Vary: Accept-Encoding before testing the request. -/
theorem c5_counterexample :
    containsSub (getH (GoRequest.mk (str "/app.js") []).headers (str "Accept-Encoding"))
        (str "gzip") = false ∧
    (gzipHandler (fun b => b) (fun _ => []) (fun _ w => w)
        (GoRequest.mk (str "/app.js") [])
        (GoResponse.mk [] none [])).headers ≠
      (GoResponse.mk [] none []).headers := by
  constructor
  · decide
  · decide

/-- Claim C5 amended: for a request not advertising gzip the layer
invokes the downstream handler with the request unchanged and with the
response changed only by the addition of Accept-Encoding to the Vary
header, which happens before the advertising test; apart from that
single header addition nothing is modified by this layer. -/
theorem c5_no_gzip_forwards_with_vary (compress detect : GoStr → GoStr)
    (h : Handler) (r : GoRequest) (w : GoResponse)
    (hng : containsSub (getH r.headers (str "Accept-Encoding")) (str "gzip") = false) :
    gzipHandler compress detect h r w =
      h r { w with headers := addH w.headers (str "Vary") (str "Accept-Encoding") } := by
  simp [gzipHandler, hng]

/-- Witness for C5's amended theorem at a concrete non-gzip request. -/
theorem c5_witness :
    gzipHandler (fun b => b) (fun _ => []) (fun _ w => w)
        (GoRequest.mk (str "/app.js") []) (GoResponse.mk [] none []) =
      (fun (_ : GoRequest) (w : GoResponse) => w)
        (GoRequest.mk (str "/app.js") [])
        { GoResponse.mk [] none [] with
            headers := addH [] (str "Vary") (str "Accept-Encoding") } :=
  c5_no_gzip_forwards_with_vary (fun b => b) (fun _ => []) (fun _ w => w)
    (GoRequest.mk (str "/app.js") []) (GoResponse.mk [] none []) (by decide)


/-- Folding appends equals appending the flattened maps. -/
theorem foldl_append_eq_flatten {α : Type} (f : α → GoStr) (l : List α) (acc : GoStr) :
    List.foldl (fun a x => a ++ f x) acc l = acc ++ List.flatten (List.map f l) := by
  induction l generalizing acc with
  | nil => simp
  | cons x xs ih => simp [List.foldl, ih, List.append_assoc]

/-- Claim C3: generateEtag equals the spec-side ETag of the version and
the concatenation, in listed order, of the request's values for the
given Vary header names; consequently it depends on the request only
through exactly those header values. -/
theorem c3_etag_spec (r : GoRequest) (version : GoStr) (varyHeaders : List GoStr) :
    generateEtag r version varyHeaders =
      specEtag version (List.flatten (List.map (fun vh => getH r.headers vh) varyHeaders)) ∧
    ∀ r2 : GoRequest, (∀ vh ∈ varyHeaders, getH r2.headers vh = getH r.headers vh) →
      generateEtag r2 version varyHeaders = generateEtag r version varyHeaders := by
  constructor
  · simp [generateEtag, specEtag, foldl_append_eq_flatten]
  · intro r2 hsame
    simp only [generateEtag, List.append_eq, foldl_append_eq_flatten]
    have : List.map (fun vh => getH r2.headers vh) varyHeaders =
        List.map (fun vh => getH r.headers vh) varyHeaders :=
      List.map_congr_left hsame
    rw [this]

/-- Witness for C3 at a concrete request: the etag for Vary list
[Accept-Encoding] is the weak validator of the version and the hex
encoding of the advertised encoding value, and any request with the
same Accept-Encoding value yields the same etag. -/
theorem c3_witness :
    generateEtag (GoRequest.mk (str "/x") [(str "Accept-Encoding", str "gzip")])
        (str "v1") [str "Accept-Encoding"] =
      specEtag (str "v1") (str "gzip") ∧
    generateEtag (GoRequest.mk (str "/y")
          [(str "X", str "1"), (str "Accept-Encoding", str "gzip")])
        (str "v1") [str "Accept-Encoding"] =
      generateEtag (GoRequest.mk (str "/x") [(str "Accept-Encoding", str "gzip")])
        (str "v1") [str "Accept-Encoding"] := by
  constructor
  · have h1 := (c3_etag_spec (GoRequest.mk (str "/x") [(str "Accept-Encoding", str "gzip")])
      (str "v1") [str "Accept-Encoding"]).1
    rw [h1]
    decide
  · exact (c3_etag_spec (GoRequest.mk (str "/x") [(str "Accept-Encoding", str "gzip")])
      (str "v1") [str "Accept-Encoding"]).2
      (GoRequest.mk (str "/y") [(str "X", str "1"), (str "Accept-Encoding", str "gzip")])
      (by decide)

/-- Hexadecimal digits are never angle brackets. -/
theorem upHexDigit_ne_angle (k : Nat) (hk : k < 16) :
    upHexDigit k ≠ Char.ofNat 60 ∧ upHexDigit k ≠ Char.ofNat 62 := by
  interval_cases k <;> exact ⟨by decide, by decide⟩

/-- The js escaper never emits an angle bracket: both brackets are
written as hexadecimal escapes, so a script terminator can never appear
raw inside an interpolated value. -/
theorem jsEscapeChar_no_angle (c : Char) :
    Char.ofNat 60 ∉ jsEscapeChar c ∧ Char.ofNat 62 ∉ jsEscapeChar c := by
  unfold jsEscapeChar
  by_cases h92 : c.toNat = 92
  · rw [if_pos h92]; exact ⟨by decide, by decide⟩
  rw [if_neg h92]
  by_cases h39 : c.toNat = 39
  · rw [if_pos h39]; exact ⟨by decide, by decide⟩
  rw [if_neg h39]
  by_cases h34 : c.toNat = 34
  · rw [if_pos h34]; exact ⟨by decide, by decide⟩
  rw [if_neg h34]
  by_cases h60 : c.toNat = 60
  · rw [if_pos h60]; exact ⟨by decide, by decide⟩
  rw [if_neg h60]
  by_cases h62 : c.toNat = 62
  · rw [if_pos h62]; exact ⟨by decide, by decide⟩
  rw [if_neg h62]
  by_cases hctl : c.toNat < 32
  · rw [if_pos hctl]
    have hd1 := upHexDigit_ne_angle (c.toNat / 16) (by omega)
    have hd2 := upHexDigit_ne_angle (c.toNat % 16) (by omega)
    have hstr : str "\\u00" = [Char.ofNat 92, Char.ofNat 117, Char.ofNat 48, Char.ofNat 48] := rfl
    rw [hstr]
    constructor <;> intro hmem <;>
      simp only [List.append_eq, List.mem_append, List.mem_cons, List.not_mem_nil,
        or_false] at hmem
    · rcases hmem with (h | h | h | h) | h | h
      · exact absurd h (by decide)
      · exact absurd h (by decide)
      · exact absurd h (by decide)
      · exact absurd h (by decide)
      · exact hd1.1 h.symm
      · exact hd2.1 h.symm
    · rcases hmem with (h | h | h | h) | h | h
      · exact absurd h (by decide)
      · exact absurd h (by decide)
      · exact absurd h (by decide)
      · exact absurd h (by decide)
      · exact hd1.2 h.symm
      · exact hd2.2 h.symm
  · rw [if_neg hctl]
    constructor <;> intro hmem <;> rw [List.mem_singleton] at hmem
    · subst hmem
      exact h60 (by decide)
    · subst hmem
      exact h62 (by decide)

/-- An escaped interpolated value never contains an angle bracket. -/
theorem jsEscape_no_angle (v : GoStr) :
    Char.ofNat 60 ∉ jsEscape v ∧ Char.ofNat 62 ∉ jsEscape v := by
  induction v with
  | nil => exact ⟨by simp [jsEscape], by simp [jsEscape]⟩
  | cons c cs ih =>
    have hc := jsEscapeChar_no_angle c
    constructor <;> intro hmem <;>
      rw [jsEscape, List.flatMap_cons, List.mem_append] at hmem
    · rcases hmem with h | h
      · exact hc.1 h
      · exact ih.1 h
    · rcases hmem with h | h
      · exact hc.2 h
      · exact ih.2 h

/-- Claim C6: GeneratedConfigHandler intercepts exactly the requests
whose path with one leading slash stripped equals config.js; on those it
adds Cache-Control no-cache, no-store and writes the rendered template,
whose every interpolated field is passed through the js escaper (see
renderConfig), an escaper that can never emit an angle bracket; every
other request is delegated untouched. -/
theorem c6_config_handler (config : WebConsoleConfig) (h : Handler)
    (r : GoRequest) (w : GoResponse) :
    (trimPrefixGo r.path (str "/") = str "config.js" →
      generatedConfigHandler config h r w =
        { w with
            headers := addH w.headers (str "Cache-Control") (str "no-cache, no-store"),
            body := List.append w.body (renderConfig config) }) ∧
    (trimPrefixGo r.path (str "/") ≠ str "config.js" →
      generatedConfigHandler config h r w = h r w) ∧
    (∀ v : GoStr, Char.ofNat 60 ∉ jsEscape v ∧ Char.ofNat 62 ∉ jsEscape v) := by
  refine ⟨?_, ?_, fun v => jsEscape_no_angle v⟩
  · intro hc
    simp [generatedConfigHandler, hc]
  · intro hc
    simp [generatedConfigHandler, hc]

/-- Witness for C6: the reserved path (with leading slash) is
intercepted with the cache-control value and rendered body, and a
non-reserved path passes through to the downstream handler. -/
theorem c6_witness :
    generatedConfigHandler
        (WebConsoleConfig.mk [] [] [] [] [] [] [] [])
        (fun _ w => { w with body := str "DOWN" })
        (GoRequest.mk (str "/config.js") []) (GoResponse.mk [] none []) =
      { GoResponse.mk [] none [] with
          headers := addH [] (str "Cache-Control") (str "no-cache, no-store"),
          body := List.append []
            (renderConfig (WebConsoleConfig.mk [] [] [] [] [] [] [] [])) } ∧
    generatedConfigHandler
        (WebConsoleConfig.mk [] [] [] [] [] [] [] [])
        (fun _ w => { w with body := str "DOWN" })
        (GoRequest.mk (str "/app.js") []) (GoResponse.mk [] none []) =
      (fun (_ : GoRequest) (w : GoResponse) => { w with body := str "DOWN" })
        (GoRequest.mk (str "/app.js") []) (GoResponse.mk [] none []) := by
  constructor
  · exact (c6_config_handler (WebConsoleConfig.mk [] [] [] [] [] [] [] [])
      (fun _ w => { w with body := str "DOWN" })
      (GoRequest.mk (str "/config.js") []) (GoResponse.mk [] none [])).1 (by decide)
  · exact (c6_config_handler (WebConsoleConfig.mk [] [] [] [] [] [] [] [])
      (fun _ w => { w with body := str "DOWN" })
      (GoRequest.mk (str "/app.js") []) (GoResponse.mk [] none [])).2.1 (by decide)

/-- Strict bytewise order is asymmetric. -/
theorem goStrLT_asymm : ∀ a b : GoStr, goStrLT a b = true → goStrLT b a = false := by
  intro a
  induction a with
  | nil => intro b hb; cases b <;> simp_all [goStrLT]
  | cons x xs ih =>
    intro b hb
    cases b with
    | nil => simp [goStrLT] at hb
    | cons y ys =>
      rw [goStrLT] at hb ⊢
      by_cases hxy : x.toNat < y.toNat
      · have : ¬ y.toNat < x.toNat := by omega
        simp [hxy, this] at hb ⊢
      · by_cases hyx : y.toNat < x.toNat
        · simp [hxy, hyx] at hb
        · simp [hxy, hyx] at hb ⊢
          exact ih ys hb

/-- Strings that are strictly below one another in neither direction are
equal. -/
theorem goStrLT_eq_of_not : ∀ a b : GoStr,
    goStrLT a b = false → goStrLT b a = false → a = b := by
  intro a
  induction a with
  | nil => intro b h1 _; cases b <;> simp_all [goStrLT]
  | cons x xs ih =>
    intro b h1 h2
    cases b with
    | nil => simp [goStrLT] at h2
    | cons y ys =>
      rw [goStrLT] at h1 h2
      by_cases hxy : x.toNat < y.toNat
      · have : ¬ y.toNat < x.toNat := by omega
        simp [hxy, this] at h1
      · by_cases hyx : y.toNat < x.toNat
        · simp [hxy, hyx] at h2
        · simp [hxy, hyx] at h1 h2
          have hxeq : x = y := Char.eq_of_val_eq (by
            have h3 : x.toNat = y.toNat := by omega
            exact UInt32.toNat.inj h3)
          rw [hxeq, ih ys h1 h2]

/-- Strict bytewise order is transitive. -/
theorem goStrLT_trans : ∀ a b c : GoStr,
    goStrLT a b = true → goStrLT b c = true → goStrLT a c = true := by
  intro a
  induction a with
  | nil =>
    intro b c hab hbc
    cases b with
    | nil => simp [goStrLT] at hab
    | cons y ys =>
      cases c with
      | nil => simp [goStrLT] at hbc
      | cons z zs => simp [goStrLT]
  | cons x xs ih =>
    intro b c hab hbc
    cases b with
    | nil => simp [goStrLT] at hab
    | cons y ys =>
      cases c with
      | nil => simp [goStrLT] at hbc
      | cons z zs =>
        rw [goStrLT] at hab hbc ⊢
        by_cases hxy : x.toNat < y.toNat <;> by_cases hyz : y.toNat < z.toNat
        · have : x.toNat < z.toNat := by omega
          simp [this]
        · by_cases hzy : z.toNat < y.toNat
          · simp [hxy, hyz, hzy] at hbc
          · have hyze : y.toNat = z.toNat := by omega
            have : x.toNat < z.toNat := by omega
            simp [this]
        · by_cases hyx : y.toNat < x.toNat
          · simp [hxy, hyx] at hab
          · have : x.toNat < z.toNat := by omega
            simp [this]
        · by_cases hyx : y.toNat < x.toNat
          · simp [hxy, hyx] at hab
          · by_cases hzy : z.toNat < y.toNat
            · simp [hyz, hzy] at hbc
            · have hxz : ¬ x.toNat < z.toNat := by omega
              have hzx : ¬ z.toNat < x.toNat := by omega
              simp [hxy, hyx, hyz, hzy, hxz, hzx] at hab hbc ⊢
              exact ih ys zs hab hbc

/-- The non-strict order is total. -/
theorem goStrLE_total (a b : GoStr) : goStrLE a b = true ∨ goStrLE b a = true := by
  unfold goStrLE
  by_cases h : goStrLT b a = true
  · right
    rw [goStrLT_asymm b a h]
    rfl
  · left
    rw [Bool.not_eq_true] at h
    rw [h]
    rfl

/-- The non-strict order is transitive. -/
theorem goStrLE_trans {a b c : GoStr}
    (h1 : goStrLE a b = true) (h2 : goStrLE b c = true) : goStrLE a c = true := by
  unfold goStrLE at h1 h2 ⊢
  rw [Bool.not_eq_eq_eq_not, Bool.not_true] at h1 h2 ⊢
  by_cases hca : goStrLT c a = true
  · by_cases hcb : goStrLT c b = true
    · rw [hcb] at h2; cases h2
    · by_cases hbc : goStrLT b c = true
      · have := goStrLT_trans b c a hbc hca
        rw [this] at h1; cases h1
      · have : b = c := goStrLT_eq_of_not b c
          (by rw [Bool.not_eq_true] at hbc; exact hbc)
          (by rw [Bool.not_eq_true] at hcb; exact hcb)
        subst this
        rw [hca] at h1; cases h1
  · rw [Bool.not_eq_true] at hca; exact hca

/-- Inserting permutes to consing. -/
theorem insertAlpha_perm (x : GoStr) (l : List GoStr) :
    (insertAlpha x l).Perm (x :: l) := by
  induction l with
  | nil => simp [insertAlpha]
  | cons y ys ih =>
    rw [insertAlpha]
    by_cases h : goStrLE x y = true
    · simp [h]
    · simp only [h, if_false]
      exact (ih.cons y).trans (List.Perm.swap x y ys)

/-- The alphabetical pass permutes its input. -/
theorem sortAlpha_perm (l : List GoStr) : (sortAlpha l).Perm l := by
  induction l with
  | nil => simp [sortAlpha]
  | cons x xs ih =>
    rw [sortAlpha]
    exact (insertAlpha_perm x (sortAlpha xs)).trans (ih.cons x)

/-- Inserting by length permutes to consing. -/
theorem insertLen_perm (x : GoStr) (l : List GoStr) :
    (insertLen x l).Perm (x :: l) := by
  induction l with
  | nil => simp [insertLen]
  | cons y ys ih =>
    rw [insertLen]
    by_cases h : List.length y ≤ List.length x
    · simp [h]
    · simp only [h, if_false]
      exact (ih.cons y).trans (List.Perm.swap x y ys)

/-- The length pass permutes its input. -/
theorem sortLenDesc_perm (l : List GoStr) : (sortLenDesc l).Perm l := by
  induction l with
  | nil => simp [sortLenDesc]
  | cons x xs ih =>
    rw [sortLenDesc]
    exact (insertLen_perm x (sortLenDesc xs)).trans (ih.cons x)

/-- The sorted subcontext list is a permutation of the keys of the
subcontext map. -/
theorem sortedSubcontexts_perm (m : List (GoStr × GoStr)) :
    (sortedSubcontexts m).Perm (subcontextKeys m) := by
  exact (sortLenDesc_perm (sortAlpha (subcontextKeys m))).trans
    (sortAlpha_perm (subcontextKeys m))

/-- The alphabetical pass is sorted by the bytewise order. -/
theorem sortAlpha_pairwise (l : List GoStr) :
    List.Pairwise (fun a b => goStrLE a b = true) (sortAlpha l) := by
  induction l with
  | nil => simp [sortAlpha]
  | cons x xs ih =>
    rw [sortAlpha]
    generalize hs : sortAlpha xs = s at ih
    clear hs
    induction s with
    | nil => simp [insertAlpha]
    | cons y ys ihy =>
      rw [insertAlpha]
      rcases List.pairwise_cons.mp ih with ⟨hy, hys⟩
      by_cases h : goStrLE x y = true
      · simp only [h, if_true]
        refine List.pairwise_cons.mpr ⟨?_, ih⟩
        intro z hz
        rcases List.mem_cons.mp hz with hz1 | hz1
        · rw [hz1]; exact h
        · exact goStrLE_trans h (hy z hz1)
      · simp only [h, if_false]
        have hyx : goStrLE y x = true := by
          rcases goStrLE_total x y with ht | ht
          · exact absurd ht h
          · exact ht
        refine List.pairwise_cons.mpr ⟨?_, ihy hys⟩
        intro z hz
        have hz2 := (insertAlpha_perm x ys).mem_iff.mp hz
        rcases List.mem_cons.mp hz2 with hz1 | hz1
        · rw [hz1]; exact hyx
        · exact hy z hz1

/-- The length pass is sorted by non-increasing length. -/
theorem sortLenDesc_pairwise (l : List GoStr) :
    List.Pairwise (fun a b => List.length b ≤ List.length a) (sortLenDesc l) := by
  induction l with
  | nil => simp [sortLenDesc]
  | cons x xs ih =>
    rw [sortLenDesc]
    generalize hs : sortLenDesc xs = s at ih
    clear hs
    induction s with
    | nil => simp [insertLen]
    | cons y ys ihy =>
      rw [insertLen]
      rcases List.pairwise_cons.mp ih with ⟨hy, hys⟩
      by_cases h : List.length y ≤ List.length x
      · simp only [h, if_true]
        refine List.pairwise_cons.mpr ⟨?_, ih⟩
        intro z hz
        rcases List.mem_cons.mp hz with hz1 | hz1
        · rw [hz1]; exact h
        · exact Nat.le_trans (hy z hz1) h
      · simp only [h, if_false]
        refine List.pairwise_cons.mpr ⟨?_, ihy hys⟩
        intro z hz
        have hz2 := (insertLen_perm x ys).mem_iff.mp hz
        rcases List.mem_cons.mp hz2 with hz1 | hz1
        · rw [hz1]; omega
        · exact hy z hz1


/-- The two-key order is transitive. -/
theorem keyOrdered_trans {a b c : GoStr}
    (h1 : keyOrdered a b) (h2 : keyOrdered b c) : keyOrdered a c := by
  rcases h1 with h1 | ⟨h1l, h1le⟩ <;> rcases h2 with h2 | ⟨h2l, h2le⟩
  · exact Or.inl (by omega)
  · exact Or.inl (by omega)
  · exact Or.inl (by omega)
  · exact Or.inr ⟨by omega, goStrLE_trans h1le h2le⟩

/-- Inserting by length into a key-ordered list that the inserted
string is bytewise below keeps it key-ordered: the inserted string goes
in front of the first string that is not longer, so equal-length
strings that were bytewise above it end up after it. -/
theorem insertLen_pairwise_key (x : GoStr) (l : List GoStr)
    (hl : List.Pairwise keyOrdered l)
    (hle : ∀ y ∈ l, goStrLE x y = true) :
    List.Pairwise keyOrdered (insertLen x l) := by
  induction l with
  | nil => simp [insertLen]
  | cons y ys ih =>
    rw [insertLen]
    rcases List.pairwise_cons.mp hl with ⟨hy, hys⟩
    by_cases h : List.length y ≤ List.length x
    · simp only [h, if_true]
      have hxy : keyOrdered x y := by
        rcases Nat.lt_or_ge (List.length y) (List.length x) with hlt | hge
        · exact Or.inl hlt
        · exact Or.inr ⟨by omega, hle y (List.mem_cons_self y ys)⟩
      refine List.pairwise_cons.mpr ⟨?_, hl⟩
      intro z hz
      rcases List.mem_cons.mp hz with hz1 | hz1
      · rw [hz1]; exact hxy
      · exact keyOrdered_trans hxy (hy z hz1)
    · simp only [h, if_false]
      refine List.pairwise_cons.mpr ⟨?_, ?_⟩
      · intro z hz
        have hz2 := (insertLen_perm x ys).mem_iff.mp hz
        rcases List.mem_cons.mp hz2 with hz1 | hz1
        · rw [hz1]; exact Or.inl (by omega)
        · exact hy z hz1
      · exact ih hys (fun z hz => hle z (List.mem_cons_of_mem y hz))

/-- The length pass over a bytewise-sorted list is sorted by the
two-key order: by descending length with the bytewise order breaking
ties among equal lengths. -/
theorem sortLenDesc_pairwise_key (l : List GoStr)
    (hl : List.Pairwise (fun a b => goStrLE a b = true) l) :
    List.Pairwise keyOrdered (sortLenDesc l) := by
  induction l with
  | nil => simp [sortLenDesc]
  | cons x xs ih =>
    rw [sortLenDesc]
    rcases List.pairwise_cons.mp hl with ⟨hx, hxs⟩
    refine insertLen_pairwise_key x (sortLenDesc xs) (ih hxs) ?_
    intro y hy
    exact hx y ((sortLenDesc_perm xs).mem_iff.mp hy)

/-- The intended ordering satisfies the spec invariant for every map:
the alphabetical pass followed by a stable length pass is a permutation
of the names sorted by descending length with the bytewise alphabetical
order as tiebreak among equal lengths.  This is the order the
construction's comments aim at and sort.Stable would deliver; the
shipped unstable sort.Sort does not guarantee it (see c2Map). -/
theorem intendedOrder_keyOrdered (m : List (GoStr × GoStr)) :
    (sortedSubcontexts m).Perm (subcontextKeys m) ∧
    List.Pairwise keyOrdered (sortedSubcontexts m) := by
  refine ⟨sortedSubcontexts_perm m, ?_⟩
  exact sortLenDesc_pairwise_key (sortAlpha (subcontextKeys m))
    (sortAlpha_pairwise (subcontextKeys m))

/-- Claim C2 (code bug): the invariant the claim states, equal-length
names in alphabetical order, is the evident intent of the two sorting
passes (the comment pair Sort alphabetically, then by length, made
load-bearing by the spec) but is not delivered by the shipped unstable
sort.Sort.  At the thirteen-name map c2Map the construction's list
under the faithful sort model is aa, ka, ca, da, ea, fa, ga, ha, ia,
ja, ma, b, l: ka precedes ca among the length-2 names, violating the
tiebreak, while the list is still a permutation of the keys ordered by
non-increasing length; the intended stable ordering does satisfy the
invariant at the same input, as sort.Stable would. -/
theorem c2_code_bug :
    sortedSubcontextsGo c2Map =
      [str "aa", str "ka", str "ca", str "da", str "ea", str "fa", str "ga", str "ha",
       str "ia", str "ja", str "ma", str "b", str "l"] ∧
    ¬ List.Pairwise keyOrdered (sortedSubcontextsGo c2Map) ∧
    List.Pairwise (fun a b => List.length b ≤ List.length a) (sortedSubcontextsGo c2Map) ∧
    (sortedSubcontextsGo c2Map).Perm (subcontextKeys c2Map) ∧
    List.Pairwise keyOrdered (sortedSubcontexts c2Map) := by
  refine ⟨by decide, by decide, by decide, by decide, by decide⟩

/-- A successful find? splits the list at the found element, with every
earlier element failing the predicate. -/
theorem find?_split {α : Type} {p : α → Bool} {l : List α} {a : α}
    (h : List.find? p l = some a) :
    ∃ l1 l2, l = l1 ++ a :: l2 ∧ ∀ x ∈ l1, p x = false := by
  induction l with
  | nil => simp [List.find?] at h
  | cons y ys ih =>
    rw [List.find?] at h
    by_cases hy : p y = true
    · rw [hy] at h
      simp only [Option.some.injEq] at h
      exact ⟨[], ys, by rw [h]; rfl, by simp⟩
    · rw [Bool.not_eq_true] at hy
      rw [hy] at h
      rcases ih h with ⟨l1, l2, heq, hall⟩
      refine ⟨y :: l1, l2, by rw [heq]; rfl, ?_⟩
      intro x hx
      rcases List.mem_cons.mp hx with h1 | h1
      · rw [h1]; exact hy
      · exact hall x h1

/-- Two subcontexts of equal length that both match a path are equal:
matching names of a fixed path have pairwise distinct lengths. -/
theorem scMatches_eq_of_length {p s1 s2 : GoStr}
    (h1 : scMatches p s1 = true) (h2 : scMatches p s2 = true)
    (hlen : List.length s1 = List.length s2) : s1 = s2 := by
  have hslash : str "/" = [slashC] := rfl
  rw [scMatches, Bool.or_eq_true] at h1 h2
  rcases h1 with h1 | h1 <;> rcases h2 with h2 | h2
  · rw [beq_iff_eq] at h1 h2
    rw [← h1, ← h2]
  · rw [beq_iff_eq] at h1
    rw [goIsPrefix_iff] at h2
    have hl2 := h2.length_le
    rw [h1, hslash] at hl2
    simp [List.length_append] at hl2
    exfalso
    omega
  · rw [beq_iff_eq] at h2
    rw [goIsPrefix_iff] at h1
    have hl1 := h1.length_le
    rw [h2, hslash] at hl1
    simp [List.length_append] at hl1
    exfalso
    omega
  · rw [goIsPrefix_iff] at h1 h2
    have hle : List.length (s1 ++ str "/") ≤ List.length (s2 ++ str "/") := by
      rw [hslash]
      simp [List.length_append]
      omega
    have hpre := List.prefix_of_prefix_length_le h1 h2 hle
    have heq := hpre.eq_of_length (by rw [hslash]; simp [List.length_append]; omega)
    exact List.append_cancel_right heq

/-- Except.map preserves success. -/
theorem isOk_map {ε α β : Type} (f : α → β) (e : Except ε α) :
    (Except.map f e).isOk = e.isOk := by
  cases e <;> rfl

/-- The construction loop succeeds exactly when the store resolves
every subcontext's index path. -/
theorem buildData_isOk (store : AssetStore) (contextRoot : GoStr)
    (m : List (GoStr × GoStr)) :
    (buildData store contextRoot m).isOk = true ↔
      ∀ pr ∈ m, (store pr.2).isSome = true := by
  induction m with
  | nil => simp [buildData, Except.isOk, Except.toBool]
  | cons pr rest ih =>
    rw [buildData]
    cases hst : store pr.2 with
    | none =>
      simp only [Except.isOk, Except.toBool]
      constructor
      · intro h; cases h
      · intro h
        have := h pr (List.mem_cons_self pr rest)
        rw [hst] at this
        cases this
    | some b =>
      rw [isOk_map, ih]
      constructor
      · intro h q hq
        rcases List.mem_cons.mp hq with h1 | h1
        · rw [h1, hst]; rfl
        · exact h q h1
      · intro h q hq
        exact h q (List.mem_cons_of_mem pr hq)

/-- Claim C7: HTML5ModeHandler construction succeeds, returning a
handler, exactly when the store resolves the index asset of every
subcontext; a single unresolvable index makes construction fail with an
error and no handler.  When it succeeds the per-request function serves
only the cached rewritten indices, so no per-request resolution of
those indices happens at all. -/
theorem c7_construction_resolves (store : AssetStore) (contextRoot : GoStr)
    (m : List (GoStr × GoStr)) (h : Handler) :
    (html5ModeHandler store contextRoot m h).isOk = true ↔
      ∀ pr ∈ m, (store pr.2).isSome = true := by
  rw [html5ModeHandler, isOk_map]
  exact buildData_isOk store contextRoot m

/-- When every index resolves, the construction loop caches, per
subcontext in iteration order, the rewritten index of the bytes its
index path resolves to. -/
theorem buildData_eq_of_resolve (store : AssetStore) (root : GoStr)
    (m : List (GoStr × GoStr))
    (hres : ∀ pr ∈ m, (store pr.2).isSome = true) :
    buildData store root m = Except.ok (List.map
      (fun pr => (pr.1, rewriteIndex root pr.1 (Option.getD (store pr.2) []))) m) := by
  induction m with
  | nil => rfl
  | cons pr rest ih =>
    rw [buildData]
    have hh := hres pr (List.mem_cons_self pr rest)
    cases hst : store pr.2 with
    | none => rw [hst] at hh; cases hh
    | some b =>
      rw [ih (fun q hq => hres q (List.mem_cons_of_mem pr hq))]
      simp [Except.map, hst]

/-- The cached data looked up for the subcontext that the map first
binds to an index path resolving to b is the rewritten index of b. -/
theorem lookupData_build (store : AssetStore) (root : GoStr)
    (m : List (GoStr × GoStr)) (sc idx b : GoStr)
    (hfind : List.find? (fun pr => pr.1 == sc) m = some (sc, idx))
    (hb : store idx = some b) :
    lookupData
      (List.map (fun pr => (pr.1, rewriteIndex root pr.1 (Option.getD (store pr.2) []))) m)
      sc = rewriteIndex root sc b := by
  rw [lookupData, List.find?_map]
  have hcomp : List.find?
      ((fun pr : GoStr × GoStr => pr.1 == sc) ∘
        (fun pr : GoStr × GoStr =>
          (pr.1, rewriteIndex root pr.1 (Option.getD (store pr.2) [])))) m
      = some (sc, idx) := hfind
  rw [hcomp]
  simp [hb]

/-- Claim C1: whenever the store does not resolve the stripped request
path and sc is a longest configured subcontext matching that path (its
index path resolving to bytes b), the constructed handler serves the
cached rewritten index of sc, whatever order the subcontext map was
iterated in: the hypotheses mention the map only through its graph. -/
theorem c1_longest_subcontext_served (store : AssetStore) (root : GoStr)
    (m : List (GoStr × GoStr)) (h : Handler) (r : GoRequest) (w : GoResponse)
    (sc idx b : GoStr)
    (hres : ∀ pr ∈ m, (store pr.2).isSome = true)
    (hfind : List.find? (fun pr => pr.1 == sc) m = some (sc, idx))
    (hb : store idx = some b)
    (hmiss : store (trimPrefixGo r.path (str "/")) = none)
    (hmatch : scMatches (trimPrefixGo r.path (str "/")) sc = true)
    (hmax : ∀ sc2 ∈ subcontextKeys m,
      scMatches (trimPrefixGo r.path (str "/")) sc2 = true →
        List.length sc2 ≤ List.length sc) :
    Except.map (fun H => H r w) (html5ModeHandler store root m h) =
      Except.ok { w with body := List.append w.body (rewriteIndex root sc b) } := by
  rw [html5ModeHandler, buildData_eq_of_resolve store root m hres]
  simp only [Except.map]
  rw [serveHTML5]
  have hscmem : sc ∈ subcontextKeys m := by
    rw [subcontextKeys]
    exact List.mem_map.mpr ⟨(sc, idx), List.mem_of_find?_eq_some hfind, rfl⟩
  have hsubmem : sc ∈ sortedSubcontexts m :=
    (sortedSubcontexts_perm m).mem_iff.mpr hscmem
  have hsome : (List.find? (fun sc2 => scMatches (trimPrefixGo r.path (str "/")) sc2)
      (sortedSubcontexts m)).isSome = true :=
    List.find?_isSome.mpr ⟨sc, hsubmem, hmatch⟩
  cases hf0 : List.find? (fun sc2 => scMatches (trimPrefixGo r.path (str "/")) sc2)
      (sortedSubcontexts m) with
  | none => rw [hf0] at hsome; cases hsome
  | some sc0 =>
    have hm0 : scMatches (trimPrefixGo r.path (str "/")) sc0 = true :=
      List.find?_some hf0
    have h0keys : sc0 ∈ subcontextKeys m :=
      (sortedSubcontexts_perm m).mem_iff.mp (List.mem_of_find?_eq_some hf0)
    have hlen0 : List.length sc0 ≤ List.length sc := hmax sc0 h0keys hm0
    have hsc0 : sc0 = sc := by
      rcases find?_split hf0 with ⟨l1, l2, heq, hall⟩
      have hsplit : sc ∈ l1 ∨ sc = sc0 ∨ sc ∈ l2 := by
        have hmm := hsubmem
        rw [heq] at hmm
        rcases List.mem_append.mp hmm with h1 | h1
        · exact Or.inl h1
        · rcases List.mem_cons.mp h1 with h1 | h1
          · exact Or.inr (Or.inl h1)
          · exact Or.inr (Or.inr h1)
      rcases hsplit with h1 | h1 | h1
      · rw [hall sc h1] at hmatch; cases hmatch
      · rw [h1]
      · have hpw : List.Pairwise (fun a c => List.length c ≤ List.length a)
            (sortedSubcontexts m) := by
          rw [sortedSubcontexts]
          exact sortLenDesc_pairwise (sortAlpha (subcontextKeys m))
        rw [heq] at hpw
        rcases (List.pairwise_append.mp hpw) with ⟨_, hp2, _⟩
        rcases List.pairwise_cons.mp hp2 with ⟨hrel, _⟩
        have hlen1 : List.length sc ≤ List.length sc0 := hrel sc h1
        exact scMatches_eq_of_length hm0 hmatch (by omega)
    simp only [hmiss]
    rw [hsc0]
    rw [lookupData_build store root m sc idx b hfind hb]






/-- Witness for C1: with subcontexts a and a/b, in either iteration
order, a request for a/b/x is served the rewritten index of a/b and a
request for a/x is served the rewritten index of a. -/
theorem c1_witness :
    Except.map (fun H => H (GoRequest.mk (str "/a/b/x") []) exW)
        (html5ModeHandler exStore (str "/console/") exM1 exDown) =
      Except.ok { exW with body := List.append exW.body (rewriteIndex (str "/console/") (str "a/b") (str "IDXB")) } ∧
    Except.map (fun H => H (GoRequest.mk (str "/a/b/x") []) exW)
        (html5ModeHandler exStore (str "/console/") exM2 exDown) =
      Except.ok { exW with body := List.append exW.body (rewriteIndex (str "/console/") (str "a/b") (str "IDXB")) } ∧
    Except.map (fun H => H (GoRequest.mk (str "/a/x") []) exW)
        (html5ModeHandler exStore (str "/console/") exM1 exDown) =
      Except.ok { exW with body := List.append exW.body (rewriteIndex (str "/console/") (str "a") (str "IDXA")) } ∧
    Except.map (fun H => H (GoRequest.mk (str "/a/x") []) exW)
        (html5ModeHandler exStore (str "/console/") exM2 exDown) =
      Except.ok { exW with body := List.append exW.body (rewriteIndex (str "/console/") (str "a") (str "IDXA")) } := by
  refine ⟨?_, ?_, ?_, ?_⟩
  · exact c1_longest_subcontext_served exStore (str "/console/") exM1 exDown
      (GoRequest.mk (str "/a/b/x") []) exW (str "a/b") (str "ib") (str "IDXB")
      (by decide) (by decide) (by decide) (by decide) (by decide) (by decide)
  · exact c1_longest_subcontext_served exStore (str "/console/") exM2 exDown
      (GoRequest.mk (str "/a/b/x") []) exW (str "a/b") (str "ib") (str "IDXB")
      (by decide) (by decide) (by decide) (by decide) (by decide) (by decide)
  · exact c1_longest_subcontext_served exStore (str "/console/") exM1 exDown
      (GoRequest.mk (str "/a/x") []) exW (str "a") (str "ia") (str "IDXA")
      (by decide) (by decide) (by decide) (by decide) (by decide) (by decide)
  · exact c1_longest_subcontext_served exStore (str "/console/") exM2 exDown
      (GoRequest.mk (str "/a/x") []) exW (str "a") (str "ia") (str "IDXA")
      (by decide) (by decide) (by decide) (by decide) (by decide) (by decide)

/-- replaceFirst leaves a string without an occurrence unchanged. -/
theorem replaceFirst_of_not_infix (s old new : GoStr) (hold : old ≠ [])
    (h : ¬ old <:+: s) : replaceFirst s old new = s := by
  induction s with
  | nil =>
    rw [replaceFirst]
    cases old with
    | nil => exact absurd rfl hold
    | cons oc orest => rfl
  | cons c rest ih =>
    rw [replaceFirst]
    by_cases hp : List.isPrefixOf old (c :: rest) = true
    · exact absurd ((goIsPrefix_iff _ _).mp hp).isInfix h
    · rw [if_neg hp]
      have hrest : ¬ old <:+: rest := fun hi => h (List.infix_cons hi)
      rw [ih hrest]

/-- replaceFirst at the first occurrence replaces exactly it, keeping
the prefix before it and the suffix after it byte-identical. -/
theorem replaceFirst_at_first (old new l1 l2 : GoStr) (hold : old ≠ [])
    (hfirst : ∀ i, i < List.length l1 →
      ¬ List.isPrefixOf old (List.drop i (l1 ++ old ++ l2)) = true) :
    replaceFirst (l1 ++ old ++ l2) old new = l1 ++ new ++ l2 := by
  induction l1 with
  | nil =>
    simp only [List.nil_append]
    cases old with
    | nil => exact absurd rfl hold
    | cons oc orest =>
      simp only [List.cons_append]
      rw [replaceFirst]
      have hpre : List.isPrefixOf (oc :: orest) (oc :: (orest ++ l2)) = true := by
        rw [goIsPrefix_iff]
        exact ⟨l2, by simp⟩
      rw [if_pos hpre]
      have hdrop : List.drop (List.length (oc :: orest)) (oc :: (orest ++ l2)) = l2 := by
        simp
      rw [hdrop]
      rfl
  | cons c l1t ih =>
    simp only [List.cons_append]
    rw [replaceFirst]
    have h0 := hfirst 0 (by simp)
    simp only [List.drop_zero, List.cons_append] at h0
    rw [if_neg h0]
    have hshift : ∀ i, i < List.length l1t →
        ¬ List.isPrefixOf old (List.drop i (l1t ++ old ++ l2)) = true := by
      intro i hi
      have := hfirst (i + 1) (by simp; omega)
      simp only [List.cons_append, List.drop_succ_cons] at this
      exact this
    rw [ih hshift]

/-- Claim C8: the rewritten index computed at construction is the index
document with only the first occurrence of the base-href placeholder
replaced by the base tag built from the context root and the
subcontext; a document without the placeholder is cached
byte-identical, and at a first occurrence the bytes before it and
after it (including any later occurrences) are kept verbatim. -/
theorem c8_rewrite_first_occurrence (root sc b : GoStr) :
    (¬ baseHrefOld <:+: b → rewriteIndex root sc b = b) ∧
    (∀ l1 l2 : GoStr, b = l1 ++ baseHrefOld ++ l2 →
      (∀ i, i < List.length l1 →
        ¬ List.isPrefixOf baseHrefOld (List.drop i b) = true) →
      rewriteIndex root sc b = l1 ++ baseHrefNew root sc ++ l2) := by
  constructor
  · intro h
    rw [rewriteIndex]
    exact replaceFirst_of_not_infix b baseHrefOld (baseHrefNew root sc) (by decide) h
  · intro l1 l2 heq hfirst
    rw [rewriteIndex, heq]
    refine replaceFirst_at_first baseHrefOld (baseHrefNew root sc) l1 l2 (by decide) ?_
    intro i hi
    have := hfirst i hi
    rw [heq] at this
    exact this

/-- Witness for C8: a document with two placeholder occurrences has
only the first replaced, the suffix with the second occurrence kept
verbatim, and a document without the placeholder is unchanged. -/
theorem c8_witness :
    rewriteIndex (str "/c/") (str "s") (str "A<base href=\"/\">B<base href=\"/\">C") =
      str "A" ++ baseHrefNew (str "/c/") (str "s") ++ str "B<base href=\"/\">C" ∧
    rewriteIndex (str "/c/") (str "s") (str "<html>NOBASE</html>") =
      str "<html>NOBASE</html>" := by
  constructor
  · exact (c8_rewrite_first_occurrence (str "/c/") (str "s")
      (str "A<base href=\"/\">B<base href=\"/\">C")).2
      (str "A") (str "B<base href=\"/\">C") (by decide) (by decide)
  · exact (c8_rewrite_first_occurrence (str "/c/") (str "s")
      (str "<html>NOBASE</html>")).1 (by decide)


/-- Counterexample to claim C10 as stated: with the slash-free (empty)
subcontext name "" mapped to an index, a request for //a/x, whose
stripped path /a/x the store does not resolve, is served that
subcontext's rewritten index instead of falling through to the
downstream handler, because "" ++ "/" = "/" is a prefix of /a/x. -/
theorem c10_counterexample :
    Except.map (fun H => H (GoRequest.mk (str "//a/x") []) exW)
        (html5ModeHandler cStore (str "/c/") [(str "", str "idx")] exDown) =
      Except.ok { exW with body := str "IDX" } ∧
    exDown (GoRequest.mk (str "//a/x") []) exW = { exW with body := str "FALL" } ∧
    cStore (trimPrefixGo (str "//a/x") (str "/")) = none ∧
    str "IDX" ≠ str "FALL" := by
  refine ⟨rfl, rfl, rfl, by decide⟩

/-- Every subcontext of the sorted list fails to match a stripped path
that kept a leading slash, provided all names are nonempty and
slash-free. -/
theorem no_match_of_leading_slash (m : List (GoStr × GoStr)) (rest : GoStr)
    (hsub : ∀ sc ∈ subcontextKeys m, sc ≠ [] ∧ slashC ∉ sc) :
    List.find? (fun sc => scMatches (slashC :: rest) sc)
      (sortedSubcontexts m) = none := by
  rw [List.find?_eq_none]
  intro sc hmem
  have hk := hsub sc ((sortedSubcontexts_perm m).mem_iff.mp hmem)
  rcases hk with ⟨hne, hnoslash⟩
  rw [scMatches]
  simp only [Bool.or_eq_true, not_or]
  constructor
  · rw [Bool.not_eq_true, beq_eq_false_iff_ne]
    intro heq
    exact hnoslash (by rw [← heq]; exact List.mem_cons_self slashC rest)
  · cases sc with
    | nil => exact absurd rfl hne
    | cons c ct =>
      have hcs : c ≠ slashC := fun he =>
        hnoslash (by rw [← he]; exact List.mem_cons_self c ct)
      have hshow : (c :: ct) ++ str "/" = c :: (ct ++ str "/") := rfl
      rw [hshow, List.isPrefixOf]
      simp [hcs]

/-- Claim C10 amended: both handlers strip at most one leading slash,
so a path starting with two slashes keeps a leading slash after
stripping; the reserved configuration path is then never intercepted,
and when every configured subcontext name is nonempty and slash-free
(the empty name, being slash-free, would match any such path through
its "" ++ "/" prefix) no subcontext matches, so an AssetStore miss
falls through to the downstream handler. -/
theorem c10_double_slash (store : AssetStore) (root : GoStr)
    (m : List (GoStr × GoStr)) (h : Handler) (config : WebConsoleConfig)
    (r : GoRequest) (w : GoResponse) (rest : GoStr)
    (hpath : r.path = slashC :: slashC :: rest)
    (hsub : ∀ sc ∈ subcontextKeys m, sc ≠ [] ∧ slashC ∉ sc)
    (hmiss : store (trimPrefixGo r.path (str "/")) = none) :
    trimPrefixGo r.path (str "/") = slashC :: rest ∧
    Except.map (fun H => H r w) (html5ModeHandler store root m h) =
      Except.map (fun _ => h r w) (html5ModeHandler store root m h) ∧
    generatedConfigHandler config h r w = h r w := by
  have hsl : str "/" = [slashC] := rfl
  have htrim : trimPrefixGo r.path (str "/") = slashC :: rest := by
    rw [trimPrefixGo, hpath, hsl]
    simp [List.isPrefixOf]
  refine ⟨htrim, ?_, ?_⟩
  · rw [html5ModeHandler]
    cases hbd : buildData store root m with
    | error e => rfl
    | ok d =>
      simp only [Except.map]
      rw [serveHTML5]
      simp only [hmiss]
      rw [htrim, no_match_of_leading_slash m rest hsub]
  · rw [generatedConfigHandler]
    have hne : trimPrefixGo r.path (str "/") ≠ str "config.js" := by
      rw [htrim]
      intro he
      have hcfg : str "config.js" = Char.ofNat 99 :: str "onfig.js" := rfl
      rw [hcfg] at he
      injection he with h1 _
      exact absurd h1 (by decide)
    rw [if_neg hne]

/-- Witness for C10's amended theorem: a request for //a/x against the
nonempty slash-free subcontext a falls through both layers. -/
theorem c10_witness :
    trimPrefixGo (GoRequest.mk (str "//a/x") []).path (str "/") = slashC :: str "a/x" ∧
    Except.map (fun H => H (GoRequest.mk (str "//a/x") []) exW)
        (html5ModeHandler cStore (str "/c/") [(str "a", str "idx")] exDown) =
      Except.map (fun _ => exDown (GoRequest.mk (str "//a/x") []) exW)
        (html5ModeHandler cStore (str "/c/") [(str "a", str "idx")] exDown) ∧
    generatedConfigHandler (WebConsoleConfig.mk [] [] [] [] [] [] [] [])
        exDown (GoRequest.mk (str "//a/x") []) exW =
      exDown (GoRequest.mk (str "//a/x") []) exW :=
  c10_double_slash cStore (str "/c/") [(str "a", str "idx")] exDown
    (WebConsoleConfig.mk [] [] [] [] [] [] [] [])
    (GoRequest.mk (str "//a/x") []) exW (str "a/x")
    (by decide) (by decide) (by decide)
